import Mathlib

/-!
Verification of the CRISPR guide-design core (`src/utils/sequence_tools.py`
and `src/utils/scoring_algorithms.py`) against its natural-language
specification.  DNA sequences over {A,T,G,C} are embedded as lists of an
inductive `Base` type; Python floats are embedded as exact rationals (all
quantities involved are finite decimal / dyadic values); Python's
`round(x, 1)` is embedded as exact banker's rounding on rationals.
-/

namespace CRISPR

/-- A DNA base.  The core's input contract restricts sequences to
uppercase {A,T,G,C}. -/
inductive Base : Type
  | A
  | T
  | G
  | C
deriving DecidableEq, Repr

/-- A DNA sequence: an ordered string over {A,T,G,C}. -/
abbrev Seq := List Base

/-- The base-pairing complement map (`complement` dict in the source:
A↔T, G↔C). -/
def complement : Base → Base
  | .A => .T
  | .T => .A
  | .G => .C
  | .C => .G

/-- Reverse complement, as built in the source by
`''.join(complement[base] for base in reversed(sequence))`. -/
def revComp (s : Seq) : Seq := s.reverse.map complement

/-- Whether the first list is a leading block of the second (character-wise). -/
def isStartOf : Seq → Seq → Bool
  | [], _ => true
  | _ :: _, [] => false
  | a :: r, b :: t => decide (a = b) && isStartOf r t

/-- Python's substring containment `r in s` on strings: `r` occurs as a
contiguous block of `s` (the empty string occurs in everything). -/
def substringOf (r : Seq) : Seq → Bool
  | [] => isStartOf r []
  | b :: t => isStartOf r (b :: t) || substringOf r t

/-- The three nuclease profiles of the `pam_patterns` dict in
`find_pam_sites`. -/
inductive PamType : Type
  | SpCas9
  | SaCas9
  | Cas12a
deriving DecidableEq, Repr

/-- Whether the profile's PAM regex matches (as a lookahead) at index `i`.
`SpCas9` is `(?=.GG)`, `SaCas9` is `(?=..[GA][AG][AG]T)`, `Cas12a` is
`(?=TTT[ACG])`, read off the `pam_patterns` dict in `find_pam_sites`. -/
def pamMatchAt (p : PamType) (s : Seq) (i : ℕ) : Bool :=
  match p with
  | .SpCas9 =>
    match s.drop i with
    | _ :: b2 :: b3 :: _ => decide (b2 = Base.G ∧ b3 = Base.G)
    | _ => false
  | .SaCas9 =>
    match s.drop i with
    | _ :: _ :: b3 :: b4 :: b5 :: b6 :: _ =>
      decide ((b3 = Base.G ∨ b3 = Base.A) ∧ (b4 = Base.A ∨ b4 = Base.G) ∧
        (b5 = Base.A ∨ b5 = Base.G) ∧ b6 = Base.T)
    | _ => false
  | .Cas12a =>
    match s.drop i with
    | b1 :: b2 :: b3 :: b4 :: _ =>
      decide (b1 = Base.T ∧ b2 = Base.T ∧ b3 = Base.T ∧
        (b4 = Base.A ∨ b4 = Base.C ∨ b4 = Base.G))
    | _ => false

/-- Embedding of `find_pam_sites`: all indices where the profile's lookahead pattern
matches, in ascending order (`re.finditer` with a zero-width lookahead
reports every position, overlapping matches included). -/
def find_pam_sites (sequence : Seq) (pam_type : PamType) : List ℕ :=
  (List.range sequence.length).filter (fun i => pamMatchAt pam_type sequence i)

/-- Embedding of `Bio.SeqUtils.gc_fraction` restricted to {A,T,G,C} input:
(count G + count C) / length. -/
def gc_fraction (seq : Seq) : ℚ :=
  ((seq.count Base.G + seq.count Base.C : ℕ) : ℚ) / (seq.length : ℚ)

/-- A guide-RNA candidate record, as built by `design_grnas`
(`sequence` / `pam` / `position` / `gc_content` keys of the Python dict). -/
structure GRNA : Type where
  sequence : Seq
  pam : Seq
  position : ℤ
  gc_content : ℚ
deriving DecidableEq, Repr

/-- Embedding of `design_grnas`: for each PAM site with `site >= 20`, take the 20 bases
before the site as the guide (`sequence[site-20:site]`, truncated at the
sequence end exactly as a Python slice is), the 3 bases from the site as
the PAM (`sequence[site:site+3]`), and keep the candidate iff
`gc_min <= gc_content <= gc_max`. -/
def design_grnas (sequence : Seq) (pam_sites : List ℤ) (gc_min gc_max : ℚ) :
    List GRNA :=
  pam_sites.filterMap fun site =>
    if 20 ≤ site then
      let grna_seq := (sequence.drop (site - 20).toNat).take 20
      let gc_content := gc_fraction grna_seq
      if gc_min ≤ gc_content ∧ gc_content ≤ gc_max then
        some { sequence := grna_seq
               pam := (sequence.drop site.toNat).take 3
               position := site - 20
               gc_content := gc_content }
      else none
    else none

/-! Scoring engine (`CRISPRScoring` in `scoring_algorithms.py`). -/

/-- Embedding of `CRISPRScoring.gc_score`: 1.0 on [0.45, 0.65], linear falloff
`gc / 0.45` below and `(1 - gc) / 0.35` above. -/
def gc_score (s : Seq) : ℚ :=
  let gc := gc_fraction s
  if 0.45 ≤ gc ∧ gc ≤ 0.65 then 1
  else if gc < 0.45 then gc / 0.45
  else (1 - gc) / 0.35

/-- The nested scan of `CRISPRScoring.self_complementarity_score`:
`for i in range(seq_len - 4): for j in range(i + 5, seq_len):` track the
largest `len(sequence[i:j])` whose slice occurs in the reverse
complement. -/
def scMax (s : Seq) : ℕ :=
  (List.range (s.length - 4)).foldl
    (fun acc i =>
      (List.range' (i + 5) (s.length - (i + 5))).foldl
        (fun acc2 j =>
          if substringOf ((s.drop i).take (j - i)) (revComp s) then
            max acc2 ((s.drop i).take (j - i)).length
          else acc2)
        acc)
    0

/-- Embedding of `CRISPRScoring.self_complementarity_score`: 1.0 if the tracked maximum
is < 5, 0.0 if it is ≥ 12, else `1 - (max - 5) / 7`. -/
def self_complementarity_score (s : Seq) : ℚ :=
  let m := scMax s
  if m < 5 then 1
  else if 12 ≤ m then 0
  else 1 - (((m : ℚ) - 5) / 7)

/-- Embedding of `get_homopolymer_run` inside `homopolymer_score`: longest run of
`base`, scanned with `seq[i] == seq[i-1] == base`, starting from
`max_run = current_run = 1`. -/
def get_homopolymer_run (seq : Seq) (base : Base) : ℕ :=
  ((List.range' 1 (seq.length - 1)).foldl
    (fun (p : ℕ × ℕ) i =>
      if seq.getD i Base.A = seq.getD (i - 1) Base.A ∧
          seq.getD (i - 1) Base.A = base then
        (max p.1 (p.2 + 1), p.2 + 1)
      else (p.1, 1))
    (1, 1)).1

/-- Embedding of `CRISPRScoring.homopolymer_score`: per-base run penalties (T stricter),
combined as `0.4*t + 0.2*a + 0.2*g + 0.2*c`. -/
def homopolymer_score (s : Seq) : ℚ :=
  let t_run := get_homopolymer_run s Base.T
  let a_run := get_homopolymer_run s Base.A
  let g_run := get_homopolymer_run s Base.G
  let c_run := get_homopolymer_run s Base.C
  let t_score : ℚ :=
    if t_run ≤ 2 then 1 else if 4 ≤ t_run then 0 else 1 - ((t_run : ℚ) - 2) / 2
  let a_score : ℚ :=
    if a_run ≤ 3 then 1 else if 5 ≤ a_run then 0 else 1 - ((a_run : ℚ) - 3) / 2
  let g_score : ℚ :=
    if g_run ≤ 3 then 1 else if 5 ≤ g_run then 0 else 1 - ((g_run : ℚ) - 3) / 2
  let c_score : ℚ :=
    if c_run ≤ 3 then 1 else if 5 ≤ c_run then 0 else 1 - ((c_run : ℚ) - 3) / 2
  0.4 * t_score + 0.2 * a_score + 0.2 * g_score + 0.2 * c_score

/-- The `preferences` table of `CRISPRScoring.position_score`
(1-based positions 1–4 and 16–20, in dict insertion order). -/
def preferences : List (ℕ × (Base → ℚ)) :=
  [(1, fun b => match b with | .G => 0.9 | .A => 0.6 | .C => 0.4 | .T => 0.2),
   (2, fun b => match b with | .G => 0.3 | .A => 0.8 | .C => 0.4 | .T => 0.3),
   (3, fun b => match b with | .G => 0.6 | .A => 0.6 | .C => 0.4 | .T => 0.3),
   (4, fun b => match b with | .G => 0.5 | .A => 0.5 | .C => 0.5 | .T => 0.4),
   (16, fun b => match b with | .G => 0.7 | .A => 0.5 | .C => 0.3 | .T => 0.3),
   (17, fun b => match b with | .G => 0.8 | .A => 0.4 | .C => 0.3 | .T => 0.2),
   (18, fun b => match b with | .G => 0.7 | .A => 0.4 | .C => 0.4 | .T => 0.3),
   (19, fun b => match b with | .G => 0.6 | .A => 0.5 | .C => 0.4 | .T => 0.3),
   (20, fun b => match b with | .G => 0.8 | .A => 0.4 | .C => 0.3 | .T => 0.2)]

/-- The loop body of `position_score`: when the (1-based) position fits in
the guide, add the weight of the base at that position and bump the
count. -/
def posStep (s : Seq) (p : ℚ × ℕ) (e : ℕ × (Base → ℚ)) : ℚ × ℕ :=
  if e.1 ≤ s.length then (p.1 + e.2 (s.getD (e.1 - 1) Base.A), p.2 + 1)
  else p

/-- Embedding of `CRISPRScoring.position_score`: for each listed position within the
guide, add the weight of the base at that position and count it; return
`score / count`, or 0.5 when nothing was counted. -/
def position_score (s : Seq) : ℚ :=
  let r := preferences.foldl (posStep s) (0, 0)
  if 0 < r.2 then r.1 / (r.2 : ℚ) else 0.5

/-- The score record returned by `CRISPRScoring.calculate_all_scores`. -/
structure ScoreSet : Type where
  gc_score : ℚ
  self_complementarity : ℚ
  homopolymer : ℚ
  position : ℚ
  final_score : ℚ
deriving DecidableEq, Repr

/-- Embedding of `CRISPRScoring.calculate_all_scores`: the four component scores plus
the weighted final score `0.25*gc + 0.25*selfcomp + 0.2*homopolymer +
0.3*position`. -/
def calculate_all_scores (s : Seq) : ScoreSet :=
  let g := gc_score s
  let sc := self_complementarity_score s
  let h := homopolymer_score s
  let p := position_score s
  { gc_score := g
    self_complementarity := sc
    homopolymer := h
    position := p
    final_score := 0.25 * g + 0.25 * sc + 0.2 * h + 0.3 * p }

/-! Off-target estimator (`check_off_targets`). -/

/-- Hamming mismatch count of `sum(a != b for a, b in zip(sequence,
window))` (Python `zip` truncates to the shorter argument, as `List.zip`
does). -/
def mismatches (g w : Seq) : ℕ :=
  (g.zip w).countP fun p => decide (p.1 ≠ p.2)

/-- The accumulation loop of `check_off_targets`: for each window start
`i in range(len(target) - len(sequence))` add `1 / 2**mismatches` when
the window has at most 4 mismatches. -/
def off_target_raw (sequence target_sequence : Seq) : ℚ :=
  (List.range (target_sequence.length - sequence.length)).foldl
    (fun acc i =>
      let window := (target_sequence.drop i).take sequence.length
      let m := mismatches sequence window
      if m ≤ 4 then acc + 1 / 2 ^ m else acc)
    0

/-- Round to nearest integer, ties to even (the rounding Python's `round`
uses). -/
def roundHalfEven (x : ℚ) : ℤ :=
  if x - ⌊x⌋ = 1 / 2 then (if ⌊x⌋ % 2 = 0 then ⌊x⌋ else ⌊x⌋ + 1)
  else round x

/-- Python's `round(x, 1)` on exact values: banker's rounding to one
decimal place. -/
def pyRound1 (x : ℚ) : ℚ := (roundHalfEven (10 * x) : ℚ) / 10

/-- The per-candidate score of `check_off_targets`:
`round(min(100, off_target_score * 20), 1)`. -/
def check_off_target_score (sequence target_sequence : Seq) : ℚ :=
  pyRound1 (min 100 (off_target_raw sequence target_sequence * 20))

/-- Embedding of `check_off_targets`: attach the off-target score to every candidate
(the Python code mutates each dict in place; the typed rendering pairs
each candidate with its score). -/
def check_off_targets (grnas : List GRNA) (target_sequence : Seq) :
    List (GRNA × ℚ) :=
  grnas.map fun g => (g, check_off_target_score g.sequence target_sequence)

/-! Spec-side definitions, written from the specification's words,
to be compared with the source-derived definitions above. -/

/-- Modelled from the spec: the start/end pairs `(i, j)` examined by the
self-complementarity scan according to the spec — `j - i ≥ 5` and the
region `sequence[i:j]` occurs in the reverse complement — with an upper
bound `p.2 ≤ jmax` on the end index. -/
def scPairs (s : Seq) (jmax : ℕ) : Finset (ℕ × ℕ) :=
  (Finset.range (s.length + 1) ×ˢ Finset.range (s.length + 1)).filter
    fun p => p.1 + 5 ≤ p.2 ∧ p.2 ≤ jmax ∧
      substringOf ((s.drop p.1).take (p.2 - p.1)) (revComp s) = true

/-- The maximum matching length over pairs with `j` strictly below the
sequence length (substrings never ending at the final base). -/
def sc_spec_max (s : Seq) : ℕ :=
  ((scPairs s s.length).filter fun p => p.2 + 1 ≤ s.length).sup
    fun p => p.2 - p.1

/-- The maximum matching length over all pairs `j - i ≥ 5` with
`j ≤ length` — including the substring ending at the final base and the
full guide — as the claim states it. -/
def sc_claim_max (s : Seq) : ℕ :=
  (scPairs s s.length).sup fun p => p.2 - p.1

/-- The self-complementarity score computed from `sc_spec_max`. -/
def sc_spec_score (s : Seq) : ℚ :=
  let m := sc_spec_max s
  if m < 5 then 1
  else if 12 ≤ m then 0
  else 1 - (((m : ℚ) - 5) / 7)

/-- The self-complementarity score computed from `sc_claim_max` (the
claim's reading, scanning all substrings up to the full guide). -/
def sc_claim_score (s : Seq) : ℚ :=
  let m := sc_claim_max s
  if m < 5 then 1
  else if 12 ≤ m then 0
  else 1 - (((m : ℚ) - 5) / 7)

/-- Modelled from the spec: the off-target accumulated sum as the spec
states it — over offsets `0 .. n - L - 1`, only windows with at most 4
mismatches, each contributing `1 / 2^mismatches`. -/
def offTargetSpecSum (g t : Seq) : ℚ :=
  ∑ i ∈ (Finset.range (t.length - g.length)).filter
      (fun i => mismatches g ((t.drop i).take g.length) ≤ 4),
    1 / 2 ^ mismatches g ((t.drop i).take g.length)

/-! Concrete inputs used by counterexamples and witnesses. -/

/-- Sequence CCAAAT, matched by the SaCas9 regex though its third base is A. -/
def ccaaat : Seq := [.C, .C, .A, .A, .A, .T]

/-- Sequence AATATT, equal to its own reverse complement. -/
def aatatt : Seq := [.A, .A, .T, .A, .T, .T]

/-- Twenty A bases followed by the SaCas9 PAM CCGAAT (26 bases). -/
def sC4 : Seq := List.replicate 20 Base.A ++ [.C, .C, .G, .A, .A, .T]

/-- Twenty-five A bases. -/
def sC5 : Seq := List.replicate 25 Base.A

/-- Eighteen A bases followed by GG (20 bases total). -/
def sC6 : Seq := List.replicate 18 Base.A ++ [.G, .G]

/-- The single candidate `design_grnas` produces from `sC6` at site 20. -/
def gC6 : GRNA :=
  { sequence := sC6, pam := [], position := 0, gc_content := 1 / 10 }

/-- A 20-base all-A guide. -/
def g20 : Seq := List.replicate 20 Base.A

/-- The guide `g20` packaged as a candidate at position 0. -/
def gC2 : GRNA := { sequence := g20, pam := [], position := 0, gc_content := 0 }

/-- The guide `g20` followed by one extra base, so the origin window at offset 0 is
among the evaluated windows. -/
def tC2 : Seq := g20 ++ [Base.T]

/-! General fold lemmas used to relate the imperative accumulation loops
to their declarative characterisations. -/

theorem foldl_le_of_forall {α : Type} (l : List α) (step : ℕ → α → ℕ) (c : ℕ)
    (hstep : ∀ acc x, x ∈ l → acc ≤ c → step acc x ≤ c) :
    ∀ a, a ≤ c → l.foldl step a ≤ c := by
  induction l with
  | nil => intro a ha; simpa using ha
  | cons y ys ih =>
    intro a ha
    rw [List.foldl_cons]
    exact ih (fun acc x hx => hstep acc x (List.mem_cons_of_mem _ hx))
      _ (hstep a y (List.mem_cons_self _ _) ha)

theorem le_foldl_init {α : Type} (l : List α) (step : ℕ → α → ℕ)
    (hmono : ∀ acc x, x ∈ l → acc ≤ step acc x) :
    ∀ a, a ≤ l.foldl step a := by
  induction l with
  | nil => intro a; simp
  | cons y ys ih =>
    intro a
    rw [List.foldl_cons]
    exact le_trans (hmono a y (List.mem_cons_self _ _))
      (ih (fun acc x hx => hmono acc x (List.mem_cons_of_mem _ hx)) _)

theorem le_foldl_of_mem {α : Type} (l : List α) (step : ℕ → α → ℕ) (v : ℕ)
    (x : α) (hmono : ∀ acc y, y ∈ l → acc ≤ step acc y) (hx : x ∈ l)
    (hv : ∀ acc, v ≤ step acc x) :
    ∀ a, v ≤ l.foldl step a := by
  induction l with
  | nil => exact absurd hx (List.not_mem_nil x)
  | cons y ys ih =>
    intro a
    rw [List.foldl_cons]
    rcases List.mem_cons.mp hx with rfl | hmem
    · exact le_trans (hv a)
        (le_foldl_init ys step
          (fun acc z hz => hmono acc z (List.mem_cons_of_mem _ hz)) _)
    · exact ih (fun acc z hz => hmono acc z (List.mem_cons_of_mem _ hz)) hmem _

theorem foldl_add_range (f : ℕ → ℚ) :
    ∀ (k : ℕ) (a : ℚ),
      (List.range k).foldl (fun acc i => acc + f i) a =
        a + ∑ i ∈ Finset.range k, f i := by
  intro k
  induction k with
  | zero => intro a; simp
  | succ n ih =>
    intro a
    rw [List.range_succ, List.foldl_append, ih, Finset.sum_range_succ]
    simp [add_assoc]

/-! Lemmas about the exact embedding of Python rounding. -/

theorem floor_le_roundHalfEven (x : ℚ) : ⌊x⌋ ≤ roundHalfEven x := by
  unfold roundHalfEven
  split_ifs with h1 h2
  · exact le_refl _
  · omega
  · rw [round_eq]
    exact Int.floor_le_floor (by linarith)

theorem roundHalfEven_le_ceil (x : ℚ) : roundHalfEven x ≤ ⌈x⌉ := by
  unfold roundHalfEven
  split_ifs with h1 h2
  · exact Int.floor_le_ceil x
  · have hne : ((⌊x⌋ : ℚ)) < x := by
      rcases lt_or_eq_of_le (Int.floor_le x) with h | h
      · exact h
      · exfalso; rw [← h] at h1; simp at h1
    have : ⌊x⌋ < ⌈x⌉ := Int.lt_ceil.mpr hne
    omega
  · rw [round_eq]
    have hx : x ≤ (⌈x⌉ : ℚ) := Int.le_ceil x
    have h5 : ⌊x + 1 / 2⌋ < ⌈x⌉ + 1 := Int.floor_lt.mpr (by push_cast; linarith)
    omega

theorem intCast_le_pyRound1 {k : ℤ} {x : ℚ} (h : (k : ℚ) ≤ x) :
    (k : ℚ) ≤ pyRound1 x := by
  have h1 : ((10 * k : ℤ) : ℚ) ≤ 10 * x := by push_cast; linarith
  have h2 : (10 * k : ℤ) ≤ ⌊(10 * x : ℚ)⌋ := Int.le_floor.mpr h1
  have h3 : (10 * k : ℤ) ≤ roundHalfEven (10 * x) :=
    le_trans h2 (floor_le_roundHalfEven _)
  have h4 : ((10 * k : ℤ) : ℚ) ≤ (roundHalfEven (10 * x) : ℚ) := by
    exact_mod_cast h3
  unfold pyRound1
  push_cast at h4
  linarith

theorem pyRound1_le_intCast {k : ℤ} {x : ℚ} (h : x ≤ (k : ℚ)) :
    pyRound1 x ≤ (k : ℚ) := by
  have h1 : 10 * x ≤ ((10 * k : ℤ) : ℚ) := by push_cast; linarith
  have h2 : ⌈(10 * x : ℚ)⌉ ≤ (10 * k : ℤ) := Int.ceil_le.mpr h1
  have h3 : roundHalfEven (10 * x) ≤ (10 * k : ℤ) :=
    le_trans (roundHalfEven_le_ceil _) h2
  have h4 : (roundHalfEven (10 * x) : ℚ) ≤ ((10 * k : ℤ) : ℚ) := by
    exact_mod_cast h3
  unfold pyRound1
  push_cast at h4
  linarith

/-! Lemmas about GC fractions. -/

theorem count_G_add_count_C_le_length (l : Seq) :
    l.count Base.G + l.count Base.C ≤ l.length := by
  induction l with
  | nil => simp
  | cons hd tl ih =>
    cases hd <;> simp [List.count_cons] <;> omega

theorem gc_fraction_nonneg (l : Seq) : 0 ≤ gc_fraction l := by
  unfold gc_fraction
  positivity

theorem gc_fraction_le_one (l : Seq) : gc_fraction l ≤ 1 := by
  rcases eq_or_ne l [] with rfl | hne
  · norm_num [gc_fraction]
  · have hpos : (0 : ℚ) < l.length := by
      have := List.length_pos.mpr hne
      exact_mod_cast this
    unfold gc_fraction
    rw [div_le_one hpos]
    exact_mod_cast count_G_add_count_C_le_length l

theorem mismatches_self (g : Seq) : mismatches g g = 0 := by
  unfold mismatches
  induction g with
  | nil => simp
  | cons hd tl ih => simpa using ih

/-! Characterisation of the candidates built by `design_grnas`. -/

theorem design_grnas_mem {s : Seq} {sites : List ℤ} {a b : ℚ} {g : GRNA} :
    g ∈ design_grnas s sites a b ↔
      ∃ site ∈ sites, 20 ≤ site ∧
        (a ≤ gc_fraction ((s.drop (site - 20).toNat).take 20) ∧
          gc_fraction ((s.drop (site - 20).toNat).take 20) ≤ b) ∧
        g = { sequence := (s.drop (site - 20).toNat).take 20
              pam := (s.drop site.toNat).take 3
              position := site - 20
              gc_content := gc_fraction ((s.drop (site - 20).toNat).take 20) } := by
  simp only [design_grnas, List.mem_filterMap]
  constructor
  · rintro ⟨site, hsite, hf⟩
    split_ifs at hf with h1 h2
    · rw [Option.some_inj] at hf
      exact ⟨site, hsite, h1, h2, hf.symm⟩
  · rintro ⟨site, hsite, h1, h2, rfl⟩
    exact ⟨site, hsite, by rw [if_pos h1, if_pos h2]⟩

/-! Equivalence of the imperative self-complementarity scan with its
declarative characterisation as a maximum over index pairs. -/

theorem mem_sc_spec_pairs {s : Seq} {p : ℕ × ℕ} :
    (p ∈ (scPairs s s.length).filter fun q => q.2 + 1 ≤ s.length) ↔
      (p.1 + 5 ≤ p.2 ∧ p.2 + 1 ≤ s.length ∧
        substringOf ((s.drop p.1).take (p.2 - p.1)) (revComp s) = true) := by
  simp only [scPairs, Finset.mem_filter, Finset.mem_product, Finset.mem_range]
  constructor
  · tauto
  · rintro ⟨h1, h2, h3⟩
    exact ⟨⟨⟨by omega, by omega⟩, h1, by omega, h3⟩, h2⟩

theorem scMax_eq_sc_spec_max (s : Seq) : scMax s = sc_spec_max s := by
  apply le_antisymm
  · refine foldl_le_of_forall _ _ _ ?_ 0 (Nat.zero_le _)
    intro acc i hi hacc
    refine foldl_le_of_forall _ _ _ ?_ acc hacc
    intro acc2 j hj hacc2
    have hi' : i < s.length - 4 := List.mem_range.mp hi
    have hj' : i + 5 ≤ j ∧ j < i + 5 + (s.length - (i + 5)) :=
      List.mem_range'_1.mp hj
    have hjn : j < s.length := by omega
    by_cases hocc : substringOf ((s.drop i).take (j - i)) (revComp s) = true
    · rw [if_pos hocc]
      have hlen : ((s.drop i).take (j - i)).length = j - i := by
        simp only [List.length_take, List.length_drop]
        omega
      rw [hlen]
      refine max_le hacc2 ?_
      have hp : ((i, j) : ℕ × ℕ) ∈
          (scPairs s s.length).filter fun q => q.2 + 1 ≤ s.length :=
        mem_sc_spec_pairs.mpr ⟨by omega, by omega, hocc⟩
      simpa using Finset.le_sup (f := fun q : ℕ × ℕ => q.2 - q.1) hp
    · rw [if_neg hocc]
      exact hacc2
  · apply Finset.sup_le
    intro p hp
    obtain ⟨h1, h2, h3⟩ := mem_sc_spec_pairs.mp hp
    refine le_foldl_of_mem _ _ _ p.1 ?_ ?_ ?_ 0
    · intro acc y hy
      refine le_foldl_init _ _ ?_ acc
      intro acc2 j hj
      dsimp only
      split
      · exact le_max_left _ _
      · exact le_rfl
    · exact List.mem_range.mpr (by omega)
    · intro acc
      refine le_foldl_of_mem _ _ _ p.2 ?_ ?_ ?_ acc
      · intro acc2 j hj
        dsimp only
        split
        · exact le_max_left _ _
        · exact le_rfl
      · exact List.mem_range'_1.mpr ⟨by omega, by omega⟩
      · intro acc2
        rw [if_pos h3]
        have hlen : ((s.drop p.1).take (p.2 - p.1)).length = p.2 - p.1 := by
          simp only [List.length_take, List.length_drop]
          omega
        rw [hlen]
        exact le_max_right _ _

/-! The off-target accumulation loop as a declarative sum. -/

theorem off_target_raw_eq_sum (g t : Seq) :
    off_target_raw g t =
      ∑ i ∈ Finset.range (t.length - g.length),
        (if mismatches g ((t.drop i).take g.length) ≤ 4 then
          (1 : ℚ) / 2 ^ mismatches g ((t.drop i).take g.length) else 0) := by
  unfold off_target_raw
  have hstep : (fun (acc : ℚ) i =>
      let window := (t.drop i).take g.length
      let m := mismatches g window
      if m ≤ 4 then acc + 1 / 2 ^ m else acc) =
      fun (acc : ℚ) i => acc +
        (if mismatches g ((t.drop i).take g.length) ≤ 4 then
          (1 : ℚ) / 2 ^ mismatches g ((t.drop i).take g.length) else 0) := by
    funext acc i
    dsimp only
    split <;> simp
  rw [hstep, foldl_add_range]
  simp

/-! Range lemmas for the four component scores. -/

theorem gc_score_mem (s : Seq) : 0 ≤ gc_score s ∧ gc_score s ≤ 1 := by
  have h0 := gc_fraction_nonneg s
  have h1 := gc_fraction_le_one s
  simp only [gc_score]
  split_ifs with ha hb
  · norm_num
  · constructor
    · positivity
    · rw [div_le_one (by norm_num)]
      linarith
  · have hge : 0.45 ≤ gc_fraction s := not_lt.mp hb
    have hgt : ¬gc_fraction s ≤ 0.65 := fun hle => ha ⟨hge, hle⟩
    have hgt' := not_le.mp hgt
    constructor
    · apply div_nonneg (by linarith) (by norm_num)
    · rw [div_le_one (by norm_num)]
      linarith

theorem self_complementarity_score_mem (s : Seq) :
    0 ≤ self_complementarity_score s ∧ self_complementarity_score s ≤ 1 := by
  simp only [self_complementarity_score]
  split_ifs with h1 h2
  · norm_num
  · norm_num
  · have ha : (5 : ℚ) ≤ (scMax s : ℚ) := by exact_mod_cast by omega
    have hb : (scMax s : ℚ) ≤ 11 := by exact_mod_cast by omega
    constructor <;> linarith

theorem homopolymer_score_mem (s : Seq) :
    0 ≤ homopolymer_score s ∧ homopolymer_score s ≤ 1 := by
  simp only [homopolymer_score]
  set tr := get_homopolymer_run s Base.T with htr
  set ar := get_homopolymer_run s Base.A with har
  set gr := get_homopolymer_run s Base.G with hgr
  set cr := get_homopolymer_run s Base.C with hcr
  have ht : 0 ≤ (if tr ≤ 2 then (1 : ℚ) else if 4 ≤ tr then 0
        else 1 - ((tr : ℚ) - 2) / 2) ∧
      (if tr ≤ 2 then (1 : ℚ) else if 4 ≤ tr then 0
        else 1 - ((tr : ℚ) - 2) / 2) ≤ 1 := by
    split_ifs with h1 h2
    · norm_num
    · norm_num
    · have : tr = 3 := by omega
      rw [this]
      norm_num
  have ha : 0 ≤ (if ar ≤ 3 then (1 : ℚ) else if 5 ≤ ar then 0
        else 1 - ((ar : ℚ) - 3) / 2) ∧
      (if ar ≤ 3 then (1 : ℚ) else if 5 ≤ ar then 0
        else 1 - ((ar : ℚ) - 3) / 2) ≤ 1 := by
    split_ifs with h1 h2
    · norm_num
    · norm_num
    · have : ar = 4 := by omega
      rw [this]
      norm_num
  have hg : 0 ≤ (if gr ≤ 3 then (1 : ℚ) else if 5 ≤ gr then 0
        else 1 - ((gr : ℚ) - 3) / 2) ∧
      (if gr ≤ 3 then (1 : ℚ) else if 5 ≤ gr then 0
        else 1 - ((gr : ℚ) - 3) / 2) ≤ 1 := by
    split_ifs with h1 h2
    · norm_num
    · norm_num
    · have : gr = 4 := by omega
      rw [this]
      norm_num
  have hc : 0 ≤ (if cr ≤ 3 then (1 : ℚ) else if 5 ≤ cr then 0
        else 1 - ((cr : ℚ) - 3) / 2) ∧
      (if cr ≤ 3 then (1 : ℚ) else if 5 ≤ cr then 0
        else 1 - ((cr : ℚ) - 3) / 2) ≤ 1 := by
    split_ifs with h1 h2
    · norm_num
    · norm_num
    · have : cr = 4 := by omega
      rw [this]
      norm_num
  obtain ⟨ht1, ht2⟩ := ht
  obtain ⟨ha1, ha2⟩ := ha
  obtain ⟨hg1, hg2⟩ := hg
  obtain ⟨hc1, hc2⟩ := hc
  constructor <;> linarith

theorem preferences_weight_bound :
    ∀ e ∈ preferences, ∀ bb : Base, 0 ≤ e.2 bb ∧ e.2 bb ≤ 0.9 := by
  intro e he bb
  fin_cases he <;> cases bb <;> exact ⟨by norm_num, by norm_num⟩

theorem posStep_count_mono (s : Seq) (p : ℚ × ℕ) (e : ℕ × (Base → ℚ)) :
    p.2 ≤ (posStep s p e).2 := by
  unfold posStep
  split_ifs <;> simp

theorem pos_fold_count_mono (s : Seq) :
    ∀ (l : List (ℕ × (Base → ℚ))) (p : ℚ × ℕ),
      p.2 ≤ (l.foldl (posStep s) p).2 := by
  intro l
  induction l with
  | nil => intro p; simp
  | cons e es ih =>
    intro p
    rw [List.foldl_cons]
    exact le_trans (posStep_count_mono s p e) (ih (posStep s p e))

theorem pos_fold_count_pos (s : Seq) :
    ∀ (l : List (ℕ × (Base → ℚ))) (p : ℚ × ℕ),
      (∃ e ∈ l, e.1 ≤ s.length) → p.2 < (l.foldl (posStep s) p).2 := by
  intro l
  induction l with
  | nil =>
    rintro p ⟨e, he, -⟩
    exact absurd he (List.not_mem_nil e)
  | cons e es ih =>
    rintro p ⟨f, hf, hfle⟩
    rw [List.foldl_cons]
    rcases List.mem_cons.mp hf with rfl | hmem
    · have hstep : (posStep s p f).2 = p.2 + 1 := by
        unfold posStep
        rw [if_pos hfle]
    -- the step at `f` bumps the count, the rest never decreases it
      calc p.2 < p.2 + 1 := Nat.lt_succ_self _
        _ = (posStep s p f).2 := hstep.symm
        _ ≤ _ := pos_fold_count_mono s es _
    · exact lt_of_le_of_lt (posStep_count_mono s p e) (ih _ ⟨f, hmem, hfle⟩)

theorem pos_fold_bound (s : Seq) :
    ∀ (l : List (ℕ × (Base → ℚ))),
      (∀ e ∈ l, ∀ bb : Base, 0 ≤ e.2 bb ∧ e.2 bb ≤ 0.9) →
      ∀ p : ℚ × ℕ, 0 ≤ p.1 → p.1 ≤ 0.9 * (p.2 : ℚ) →
        0 ≤ (l.foldl (posStep s) p).1 ∧
          (l.foldl (posStep s) p).1 ≤ 0.9 * ((l.foldl (posStep s) p).2 : ℚ) := by
  intro l
  induction l with
  | nil =>
    intro _ p h1 h2
    simpa using ⟨h1, h2⟩
  | cons e es ih =>
    intro hl p h1 h2
    rw [List.foldl_cons]
    have hes := fun e' he' => hl e' (List.mem_cons_of_mem _ he')
    by_cases hc : e.1 ≤ s.length
    · obtain ⟨hw1, hw2⟩ :=
        hl e (List.mem_cons_self _ _) (s.getD (e.1 - 1) Base.A)
      have hstep : posStep s p e =
          (p.1 + e.2 (s.getD (e.1 - 1) Base.A), p.2 + 1) := by
        unfold posStep
        rw [if_pos hc]
      rw [hstep]
      exact ih hes _ (by dsimp only; linarith) (by dsimp only; push_cast; linarith)
    · have hstep : posStep s p e = p := by
        unfold posStep
        rw [if_neg hc]
      rw [hstep]
      exact ih hes p h1 h2

theorem position_score_mem (s : Seq) (h : s ≠ []) :
    0 ≤ position_score s ∧ position_score s ≤ 1 := by
  have hlen : 1 ≤ s.length := List.length_pos.mpr h
  obtain ⟨hb1, hb2⟩ :=
    pos_fold_bound s preferences preferences_weight_bound (0, 0) le_rfl
      (by norm_num)
  have hcount : 0 < (preferences.foldl (posStep s) (0, 0)).2 :=
    pos_fold_count_pos s preferences (0, 0) ⟨_, List.mem_cons_self _ _, hlen⟩
  simp only [position_score]
  rw [if_pos hcount]
  have hqpos : (0 : ℚ) < ((preferences.foldl (posStep s) (0, 0)).2 : ℚ) := by
    exact_mod_cast hcount
  constructor
  · positivity
  · rw [div_le_one hqpos]
    nlinarith [hqpos]

/-- Evaluation of `design_grnas` on a single in-range site. -/
theorem design_grnas_singleton (s : Seq) (site : ℤ) (a b : ℚ)
    (h20 : 20 ≤ site)
    (hab : a ≤ gc_fraction ((s.drop (site - 20).toNat).take 20) ∧
      gc_fraction ((s.drop (site - 20).toNat).take 20) ≤ b) :
    design_grnas s [site] a b =
      [{ sequence := (s.drop (site - 20).toNat).take 20
         pam := (s.drop site.toNat).take 3
         position := site - 20
         gc_content := gc_fraction ((s.drop (site - 20).toNat).take 20) }] := by
  simp only [design_grnas, List.filterMap_cons, List.filterMap_nil]
  rw [if_pos h20, if_pos hab]

/-- The candidate list of `sC6` with the widest GC bounds contains
`gC6`. -/
theorem gC6_mem : gC6 ∈ design_grnas sC6 [20] 0 1 := by
  rw [design_grnas_singleton sC6 20 0 1 (by norm_num)
    ⟨gc_fraction_nonneg _, gc_fraction_le_one _⟩]
  have e1 : (sC6.drop ((20 : ℤ) - 20).toNat).take 20 = sC6 := by decide
  have e2 : (sC6.drop (20 : ℤ).toNat).take 3 = ([] : Seq) := by decide
  have e3 : gc_fraction sC6 = 1 / 10 := by
    have hG : sC6.count Base.G = 2 := by decide
    have hC : sC6.count Base.C = 0 := by decide
    have hL : sC6.length = 20 := by decide
    unfold gc_fraction
    rw [hG, hC, hL]
    norm_num
  rw [List.mem_singleton, e1, e2, e3]
  simp only [gC6, GRNA.mk.injEq]
  norm_num

/-- The GC fraction of the all-G 20-mer is exactly 1. -/
theorem gc_fraction_replicate_G :
    gc_fraction (List.replicate 20 Base.G) = 1 := by
  have hG : (List.replicate 20 Base.G).count Base.G = 20 := by decide
  have hC : (List.replicate 20 Base.G).count Base.C = 0 := by decide
  have hL : (List.replicate 20 Base.G).length = 20 := by decide
  unfold gc_fraction
  rw [hG, hC, hL]
  norm_num

/-! Claim theorems. -/

/-- Claim C1: the spec and the profile's own name "NNGRRT" require the
third base of every reported SaCas9 6-mer to be exactly G, but the code's
regex `..[GA][AG][AG]T` also accepts A there: on CCAAAT the code reports
index 0 although the base at offset 2 is A. -/
theorem c1_sacas9_third_base_bug :
    find_pam_sites ccaaat PamType.SaCas9 = [0] ∧
      ccaaat.getD 2 Base.G ≠ Base.G := by
  decide

/-- Claim C2, counterexample: a candidate whose guide occurs verbatim at
its recorded position 0, with the full sequence equal to the guide, gets
off-target score 0 — the origin window at offset `n - L` is never
evaluated, so the score is not always at least 20. -/
theorem c2_counterexample :
    (g20.drop gC2.position.toNat).take gC2.sequence.length = gC2.sequence ∧
      check_off_targets [gC2] g20 = [(gC2, 0)] ∧ ¬(20 ≤ (0 : ℚ)) := by
  refine ⟨by decide, ?_, by norm_num⟩
  have hlen : g20.length - gC2.sequence.length = 0 := by decide
  have hraw : off_target_raw gC2.sequence g20 = 0 := by
    unfold off_target_raw
    rw [hlen]
    simp
  have hscore : check_off_target_score gC2.sequence g20 = 0 := by
    unfold check_off_target_score
    rw [hraw, zero_mul, min_eq_right (by norm_num : (0 : ℚ) ≤ 100)]
    unfold pyRound1 roundHalfEven
    norm_num
  simp [check_off_targets, hscore]

/-- Claim C2 (amended): whenever a candidate's guide occurs verbatim at
its recorded start position and that origin window is among the evaluated
offsets (position + guide length < sequence length), `check_off_targets`
assigns it a score of at least 20, the self-match window contributing
`1.0 × 20`. -/
theorem c2_self_match_lower_bound (grnas : List GRNA) (t : Seq) (g : GRNA)
    (sc : ℚ) (hmem : (g, sc) ∈ check_off_targets grnas t)
    (hocc : (t.drop g.position.toNat).take g.sequence.length = g.sequence)
    (hlt : g.position.toNat + g.sequence.length < t.length) :
    20 ≤ sc := by
  obtain ⟨g', hg', heq⟩ := List.mem_map.mp hmem
  rw [Prod.mk.injEq] at heq
  obtain ⟨rfl, rfl⟩ := heq
  have hterm :
      (if mismatches g'.sequence
            ((t.drop g'.position.toNat).take g'.sequence.length) ≤ 4 then
        (1 : ℚ) / 2 ^ mismatches g'.sequence
            ((t.drop g'.position.toNat).take g'.sequence.length)
      else 0) = 1 := by
    rw [hocc, mismatches_self]
    norm_num
  have hmemrange : g'.position.toNat ∈
      Finset.range (t.length - g'.sequence.length) :=
    Finset.mem_range.mpr (by omega)
  have hsingle : (if mismatches g'.sequence
        ((t.drop g'.position.toNat).take g'.sequence.length) ≤ 4 then
      (1 : ℚ) / 2 ^ mismatches g'.sequence
        ((t.drop g'.position.toNat).take g'.sequence.length)
    else 0) ≤
      ∑ i ∈ Finset.range (t.length - g'.sequence.length),
        (if mismatches g'.sequence ((t.drop i).take g'.sequence.length) ≤ 4 then
          (1 : ℚ) / 2 ^ mismatches g'.sequence ((t.drop i).take g'.sequence.length)
        else 0) := by
    exact Finset.single_le_sum
      (f := fun i =>
        if mismatches g'.sequence ((t.drop i).take g'.sequence.length) ≤ 4 then
          (1 : ℚ) / 2 ^ mismatches g'.sequence ((t.drop i).take g'.sequence.length)
        else 0)
      (fun i _ => by dsimp only; split <;> positivity) hmemrange
  have hone : (1 : ℚ) ≤ off_target_raw g'.sequence t := by
    rw [off_target_raw_eq_sum]
    exact le_trans (le_of_eq hterm.symm) hsingle
  have h20 : ((20 : ℤ) : ℚ) ≤ min 100 (off_target_raw g'.sequence t * 20) := by
    push_cast
    exact le_min (by norm_num) (by linarith)
  have := intCast_le_pyRound1 h20
  unfold check_off_target_score
  exact_mod_cast this

/-- Claim C2, witness: a concrete candidate at position 0 inside a
21-base sequence reaches the 20-point lower bound. -/
theorem c2_self_match_lower_bound_witness :
    (tC2.drop gC2.position.toNat).take gC2.sequence.length = gC2.sequence ∧
      20 ≤ check_off_target_score gC2.sequence tC2 :=
  ⟨by decide,
    c2_self_match_lower_bound [gC2] tC2 gC2
      (check_off_target_score gC2.sequence tC2) (by simp [check_off_targets])
      (by decide) (by decide)⟩

/-- Claim C3, counterexample: on AATATT (its own reverse complement) the
code returns 1.0, while the claim's scan — which also tests substrings
ending at the final base, up to the full guide — would find a length-6
match and yield 6/7. -/
theorem c3_counterexample :
    self_complementarity_score aatatt = 1 ∧ sc_claim_score aatatt = 6 / 7 ∧
      self_complementarity_score aatatt ≠ sc_claim_score aatatt := by
  have h1 : scMax aatatt = 5 := by decide
  have h2 : sc_claim_max aatatt = 6 := by decide
  refine ⟨?_, ?_, ?_⟩
  · simp only [self_complementarity_score, h1]
    norm_num
  · simp only [sc_claim_score, h2]
    norm_num
  · simp only [self_complementarity_score, sc_claim_score, h1, h2]
    norm_num

/-- Claim C3 (amended): the self-complementarity maximum is taken over
exactly the substrings `sequence[i:j]` with `j - i ≥ 5` and
`j ≤ length - 1` — substrings ending at the final base, and the full
guide, are never tested — and the score is the stated piecewise function
of that maximum. -/
theorem c3_max_complementary_spec (s : Seq) :
    self_complementarity_score s = sc_spec_score s := by
  simp only [self_complementarity_score, sc_spec_score, scMax_eq_sc_spec_max]

/-- Claim C4, counterexample: on a sequence whose only SaCas9 site is at
index 20, the candidate's `pam` field is the 3-mer CCG, not the matched
6-mer CCGAAT. -/
theorem c4_counterexample :
    find_pam_sites sC4 PamType.SaCas9 = [20] ∧
      (design_grnas sC4 [20] 0 1).map GRNA.pam = [[Base.C, Base.C, Base.G]] ∧
      (sC4.drop 20).take 6 = [Base.C, Base.C, Base.G, Base.A, Base.A, Base.T] ∧
      ([Base.C, Base.C, Base.G] : Seq) ≠
        [Base.C, Base.C, Base.G, Base.A, Base.A, Base.T] := by
  refine ⟨by decide, ?_, by decide, by decide⟩
  rw [design_grnas_singleton sC4 20 0 1 (by norm_num)
    ⟨gc_fraction_nonneg _, gc_fraction_le_one _⟩]
  decide

/-- Claim C4 (amended): every candidate's `pam` attribute is the fixed
3-base slice `sequence[site:site+3]` at its originating site, regardless
of the nuclease profile (and possibly shorter near the sequence end);
`design_grnas` takes no profile and never stores a 6-mer or 4-mer PAM. -/
theorem c4_pam_always_trimer (s : Seq) (sites : List ℤ) (a b : ℚ) (g : GRNA)
    (hg : g ∈ design_grnas s sites a b) :
    g.pam = (s.drop (g.position + 20).toNat).take 3 ∧ g.pam.length ≤ 3 := by
  obtain ⟨site, -, h20, -, rfl⟩ := design_grnas_mem.mp hg
  constructor
  · show (s.drop site.toNat).take 3 = (s.drop (site - 20 + 20).toNat).take 3
    have hsite : site - 20 + 20 = site := by ring
    rw [hsite]
  · show ((s.drop site.toNat).take 3).length ≤ 3
    exact List.length_take_le _ _

/-- Claim C4, witness: the single candidate of `sC6` carries the 3-mer
slice at its site. -/
theorem c4_pam_always_trimer_witness :
    gC6 ∈ design_grnas sC6 [20] 0 1 ∧
      (gC6.pam = (sC6.drop (gC6.position + 20).toNat).take 3 ∧
        gC6.pam.length ≤ 3) :=
  ⟨gC6_mem, c4_pam_always_trimer sC6 [20] 0 1 gC6 gC6_mem⟩

/-- Claim C5, counterexample: with a 25-base sequence and PAM position 30,
`design_grnas` returns a candidate whose guide span [10, 30) extends past
the sequence end — the guide is the truncated 15-base slice, not
discarded and not of length 20. -/
theorem c5_counterexample :
    (design_grnas sC5 [30] 0 1).map (fun g => g.sequence.length) = [15] ∧
      (15 : ℕ) ≠ 20 := by
  refine ⟨?_, by decide⟩
  rw [design_grnas_singleton sC5 30 0 1 (by norm_num)
    ⟨gc_fraction_nonneg _, gc_fraction_le_one _⟩]
  decide

/-- Claim C5 (amended): `design_grnas` produces no candidate for a site
below 20 (the guide span would extend below position 0), and every
candidate's guide is `sequence[site-20:site]`; the guide has length
exactly 20 whenever the site is at most the sequence length, but sites
beyond the sequence end are not discarded and yield truncated guides. -/
theorem c5_guide_span (s : Seq) (sites : List ℤ) (a b : ℚ) (g : GRNA)
    (hg : g ∈ design_grnas s sites a b) :
    ∃ site ∈ sites, 20 ≤ site ∧ g.position = site - 20 ∧
      g.sequence = (s.drop (site - 20).toNat).take 20 ∧
      (site ≤ (s.length : ℤ) → g.sequence.length = 20) := by
  obtain ⟨site, hmem, h20, -, rfl⟩ := design_grnas_mem.mp hg
  refine ⟨site, hmem, h20, rfl, rfl, ?_⟩
  intro hle
  show ((s.drop (site - 20).toNat).take 20).length = 20
  simp only [List.length_take, List.length_drop]
  omega

/-- Claim C5, witness: the candidate of `sC6` originates at site 20 and
has a 20-base guide. -/
theorem c5_guide_span_witness :
    gC6 ∈ design_grnas sC6 [20] 0 1 ∧
      ∃ site ∈ [(20 : ℤ)], 20 ≤ site ∧ gC6.position = site - 20 ∧
        gC6.sequence = (sC6.drop (site - 20).toNat).take 20 ∧
        (site ≤ (sC6.length : ℤ) → gC6.sequence.length = 20) :=
  ⟨gC6_mem, c5_guide_span sC6 [20] 0 1 gC6 gC6_mem⟩

/-- Claim C6: `design_grnas` never returns a candidate whose GC fraction
lies outside [gc_min, gc_max]; if gc_min > gc_max the result is empty;
and with gc_min = 0, gc_max = 1 every structurally valid site (site ≥ 20
and site ≤ sequence length) contributes its candidate. -/
theorem c6_gc_filter :
    (∀ (s : Seq) (sites : List ℤ) (a b : ℚ) (g : GRNA),
        g ∈ design_grnas s sites a b →
          a ≤ g.gc_content ∧ g.gc_content ≤ b) ∧
    (∀ (s : Seq) (sites : List ℤ) (a b : ℚ), b < a →
        design_grnas s sites a b = []) ∧
    (∀ (s : Seq) (sites : List ℤ) (site : ℤ), site ∈ sites → 20 ≤ site →
        site ≤ (s.length : ℤ) →
        ∃ g ∈ design_grnas s sites 0 1, g.position = site - 20 ∧
          g.sequence = (s.drop (site - 20).toNat).take 20) := by
  refine ⟨?_, ?_, ?_⟩
  · intro s sites a b g hg
    obtain ⟨site, -, -, hgc, rfl⟩ := design_grnas_mem.mp hg
    exact hgc
  · intro s sites a b hab
    simp only [design_grnas]
    rw [List.filterMap_eq_nil_iff]
    intro site hsite
    split_ifs with h1 h2
    · exact absurd (le_trans h2.1 h2.2) (not_le.mpr hab)
    · rfl
    · rfl
  · intro s sites site hmem h20 hlen
    exact ⟨_, design_grnas_mem.mpr
      ⟨site, hmem, h20, ⟨gc_fraction_nonneg _, gc_fraction_le_one _⟩, rfl⟩,
      rfl, rfl⟩

/-- Claim C6, witness: concrete instances of all three parts on `sC6`. -/
theorem c6_gc_filter_witness :
    (0 ≤ gC6.gc_content ∧ gC6.gc_content ≤ 1) ∧
      design_grnas sC6 [30] 1 0 = [] ∧
      ∃ g ∈ design_grnas sC6 [20] 0 1, g.position = (20 : ℤ) - 20 ∧
        g.sequence = (sC6.drop ((20 : ℤ) - 20).toNat).take 20 :=
  ⟨c6_gc_filter.1 sC6 [20] 0 1 gC6 gC6_mem,
    c6_gc_filter.2.1 sC6 [30] 1 0 (by norm_num),
    c6_gc_filter.2.2 sC6 [20] 20 (by decide) (by decide) (by decide)⟩

/-- Claim C7: the off-target score equals `min(100, 20 × Σ 1/2^m(i))`
rounded to one decimal, the sum running over window offsets 0 to
`n - L - 1` restricted to windows with at most 4 mismatches (the final
alignment at offset `n - L` is not evaluated), and the score always lies
in [0, 100]. -/
theorem c7_off_target_formula (g t : Seq) (h : g.length ≤ t.length) :
    check_off_target_score g t =
      pyRound1 (min 100 (20 * offTargetSpecSum g t)) ∧
    0 ≤ check_off_target_score g t ∧ check_off_target_score g t ≤ 100 := by
  have hraw : off_target_raw g t = offTargetSpecSum g t := by
    rw [off_target_raw_eq_sum]
    unfold offTargetSpecSum
    rw [Finset.sum_filter]
  have h0 : (0 : ℚ) ≤ off_target_raw g t := by
    rw [off_target_raw_eq_sum]
    apply Finset.sum_nonneg
    intro i _
    split
    · positivity
    · exact le_rfl
  refine ⟨?_, ?_, ?_⟩
  · unfold check_off_target_score
    rw [hraw, mul_comm (offTargetSpecSum g t) 20]
  · unfold check_off_target_score
    have h1 : ((0 : ℤ) : ℚ) ≤ min 100 (off_target_raw g t * 20) := by
      push_cast
      exact le_min (by norm_num) (by linarith)
    have := intCast_le_pyRound1 h1
    simpa using this
  · unfold check_off_target_score
    have h1 : min 100 (off_target_raw g t * 20) ≤ ((100 : ℤ) : ℚ) := by
      push_cast
      exact min_le_left _ _
    have := pyRound1_le_intCast h1
    simpa using this

/-- Claim C7, witness: concrete evaluation on a one-base guide against a
two-base sequence. -/
theorem c7_off_target_formula_witness :
    [Base.A].length ≤ [Base.A, Base.T].length ∧
      (check_off_target_score [Base.A] [Base.A, Base.T] =
          pyRound1 (min 100 (20 * offTargetSpecSum [Base.A] [Base.A, Base.T])) ∧
        0 ≤ check_off_target_score [Base.A] [Base.A, Base.T] ∧
        check_off_target_score [Base.A] [Base.A, Base.T] ≤ 100) :=
  ⟨by decide, c7_off_target_formula [Base.A] [Base.A, Base.T] (by decide)⟩

/-- Claim C8: for every non-empty guide over {A,T,G,C} the four component
scores of `calculate_all_scores` each lie in [0, 1], the final score is
the weighted sum `0.25*gc + 0.25*selfcomp + 0.2*homopolymer +
0.3*position`, and the final score lies in [0, 1]. -/
theorem c8_scores_in_range (s : Seq) (h : s ≠ []) :
    (0 ≤ (calculate_all_scores s).gc_score ∧
      (calculate_all_scores s).gc_score ≤ 1) ∧
    (0 ≤ (calculate_all_scores s).self_complementarity ∧
      (calculate_all_scores s).self_complementarity ≤ 1) ∧
    (0 ≤ (calculate_all_scores s).homopolymer ∧
      (calculate_all_scores s).homopolymer ≤ 1) ∧
    (0 ≤ (calculate_all_scores s).position ∧
      (calculate_all_scores s).position ≤ 1) ∧
    (calculate_all_scores s).final_score =
      0.25 * (calculate_all_scores s).gc_score +
        0.25 * (calculate_all_scores s).self_complementarity +
        0.2 * (calculate_all_scores s).homopolymer +
        0.3 * (calculate_all_scores s).position ∧
    (0 ≤ (calculate_all_scores s).final_score ∧
      (calculate_all_scores s).final_score ≤ 1) := by
  obtain ⟨hg1, hg2⟩ := gc_score_mem s
  obtain ⟨hs1, hs2⟩ := self_complementarity_score_mem s
  obtain ⟨hh1, hh2⟩ := homopolymer_score_mem s
  obtain ⟨hp1, hp2⟩ := position_score_mem s h
  have hfinal : (calculate_all_scores s).final_score =
      0.25 * gc_score s + 0.25 * self_complementarity_score s +
        0.2 * homopolymer_score s + 0.3 * position_score s := rfl
  refine ⟨⟨hg1, hg2⟩, ⟨hs1, hs2⟩, ⟨hh1, hh2⟩, ⟨hp1, hp2⟩, rfl, ?_, ?_⟩
  · rw [hfinal]
    linarith
  · rw [hfinal]
    linarith

/-- Claim C8, witness: the guaranteed bounds instantiated on the one-base
guide A. -/
theorem c8_scores_in_range_witness :
    ([Base.A] : Seq) ≠ [] ∧
      (0 ≤ (calculate_all_scores [Base.A]).final_score ∧
        (calculate_all_scores [Base.A]).final_score ≤ 1) :=
  ⟨by decide, (c8_scores_in_range [Base.A] (by decide)).2.2.2.2.2⟩

/-- Claim C9, counterexample: the GC score of the all-G 20-mer is not
1.0. -/
theorem c9_counterexample :
    gc_score (List.replicate 20 Base.G) ≠ 1 := by
  simp only [gc_score, gc_fraction_replicate_G]
  norm_num

/-- Claim C9 (amended): for the all-G 20-mer the GC fraction 1.0 falls in
the upper branch and the GC score is `(1 - 1) / 0.35 = 0.0`. -/
theorem c9_gc_score_all_g :
    gc_score (List.replicate 20 Base.G) = 0 := by
  simp only [gc_score, gc_fraction_replicate_G]
  norm_num

/-- Claim C10: any sequence of length at most 5 gets
self-complementarity score exactly 1.0 — the scan's inner loop only
reaches end indices strictly below the length, so no region of length
at least 5 is ever examined and the tracked maximum stays 0. -/
theorem c10_short_guides (s : Seq) (h : s.length ≤ 5) :
    self_complementarity_score s = 1 := by
  have hmax : scMax s = 0 := by
    rw [scMax_eq_sc_spec_max]
    apply Nat.le_antisymm _ (Nat.zero_le _)
    unfold sc_spec_max
    apply Finset.sup_le
    intro p hp
    obtain ⟨h1, h2, -⟩ := mem_sc_spec_pairs.mp hp
    omega
  simp only [self_complementarity_score, hmax]
  norm_num

/-- Claim C10, witness: the all-A 5-mer scores 1.0. -/
theorem c10_short_guides_witness :
    (List.replicate 5 Base.A).length ≤ 5 ∧
      self_complementarity_score (List.replicate 5 Base.A) = 1 :=
  ⟨by decide, c10_short_guides (List.replicate 5 Base.A) (by decide)⟩

end CRISPR
